import Mathlib

/-!
Verification of the `red` line editor's command interpreter.

The development is a shallow embedding of the sources:
  src/tokenizer.rs  — `tokenize`
  src/parser.rs     — `parse_address`, `parse`
  src/commands.rs   — `Address`, `Mode`, `Action`, `Command` and the executor
  src/red.rs        — the `Red` state and its helper methods

Conventions of the embedding:
  * Rust `String`/`&str` is modelled as `List Char` (`Str`), `usize` as `Nat`,
    `isize` as `Int`.
  * Fallible Rust functions returning `Result<T, failure::Error>` are modelled
    with `PRes` (ok / err); a Rust panic (out-of-bounds slice or index,
    `unwrap` of `None`, `usize` underflow used as an index) is modelled by the
    distinguished `panic` outcome.
  * `Command::execute` mutates `Red` in place; the embedding threads the state
    explicitly.  `ExecResult.err` carries the state as it stands when the
    error is returned, since an early `return Err(..)` in Rust leaves all
    mutations already performed in place.
  * Terminal output (`print`, byte counts, log lines) is dropped: the model
    keeps the state transitions and the control flow around them, including
    the failure used by `write_range` on an empty buffer and the `unwrap`
    panics on out-of-range lines.
  * The file system is an explicit read oracle `Str → Option (List Str)`
    passed to `execute`; `None` models `File::open` failing.  Writing to a
    file is modelled as always succeeding (a true I/O fault is out of scope).
  * The `regex` crate is an external collaborator; it is modelled for literal
    patterns (no metacharacters): `replaceFirst` rewrites the leftmost
    occurrence, `replaceAll` every non-overlapping occurrence left to right,
    exactly the behaviour of `Regex::replace` / `Regex::replace_all` on a
    literal pattern.  `Regex::new` on a literal pattern always succeeds.
-/

namespace RedEd

/-- Rust `String` / `&str`, modelled as its character sequence. -/
abbrev Str := List Char

/-- `commands.rs`: `enum Address`. -/
inductive Address where
  | CurrentLine : Address
  | LastLine : Address
  | Numbered : Nat → Address
  | Offset : Int → Address
deriving DecidableEq, Repr

/-- `commands.rs`: `enum Mode`. -/
inductive Mode where
  | Command : Mode
  | Input : Mode
deriving DecidableEq, Repr

/-- `commands.rs`: `enum Action`. -/
inductive Action where
  | Quit : Action
  | Continue : Action
  | Unknown : Action
deriving DecidableEq, Repr

/-- `commands.rs`: `enum Command`. -/
inductive Command where
  | Noop : Command
  | Quit : Bool → Command
  | Help : Command
  | Jump : Address → Command
  | Print : Option Address → Option Address → Command
  | Numbered : Option Address → Option Address → Command
  | Delete : Option Address → Option Address → Command
  | Write : Option Address → Option Address → Option Str → Command
  | Insert : Option Address → Command
  | Append : Option Address → Command
  | Edit : Option Str → Command
  | Change : Option Address → Option Address → Command
  | Read : Option Address → Option Str → Command
  | Move : Option Address → Option Address → Address → Command
  | Substitute : Option Address → Option Address → Option Str → Command
deriving DecidableEq, Repr

/-- `tokenizer.rs`: `enum Token`. -/
inductive Token where
  | Address : Str → Token
  | Separator : Char → Token
  | Command : Char → Token
  | Suffix : Str → Token
  | Argument : Str → Token
deriving DecidableEq, Repr

/-- `red.rs`: `struct Red` (the `prompt` configuration string is omitted,
it never influences command execution). -/
structure Red where
  current_line : Nat
  data : List Str
  mode : Mode
  path : Option Str
  dirty : Bool
  last_error : Option String
deriving DecidableEq, Repr

/-- Result of a fallible Rust function: `Ok`, `Err`, or a process-aborting
panic. -/
inductive PRes (α : Type) where
  | ok : α → PRes α
  | err : String → PRes α
  | panic : PRes α
deriving DecidableEq, Repr

/-- Result of `Command::execute`: the final state together with the returned
`Action`, the state at the moment an `Err` is returned, or a panic. -/
inductive ExecResult where
  | ok : Red → Action → ExecResult
  | err : Red → String → ExecResult
  | panic : ExecResult
deriving DecidableEq, Repr

/-- The read side of the file system: a path yields its lines, or cannot be
opened. -/
abbrev FileSys := Str → Option (List Str)

/-- A file system with no readable files, used for concrete evaluations of
commands that never read a file. -/
def fs0 : FileSys := fun _ => none

/-- `red.rs`: `Red::lines`. -/
def Red.lines (ed : Red) : Nat := ed.data.length

/-- `red.rs`: `Red::set_line`. -/
def Red.set_line (ed : Red) (line : Nat) : PRes Red :=
  if line < 1 ∨ ed.lines < line then .err "Invalid address"
  else .ok { ed with current_line := line }

/-- `red.rs`: `Red::get_line`. -/
def Red.get_line (ed : Red) (line : Nat) : Option Str :=
  if 0 < line ∧ line ≤ ed.lines then some (ed.data.getD (line - 1) []) else none

/-- `tokenizer.rs`: the `COMMANDS` table of command letters. -/
def COMMANDS : List Char :=
  ['p', 'n', 'w', 'd', 'a', 'i', 'c', 'h', 'q', 'Q', 'e', 'c', 'r', 'm', 's', 'g']

/-- Rust `str::trim` (both ends, unicode whitespace). -/
def trimStr (s : Str) : Str :=
  ((s.dropWhile Char.isWhitespace).reverse.dropWhile Char.isWhitespace).reverse

/-- `tokenizer.rs`: `tokenize`.  The Rust function's `Result` is kept in the
signature; note that the body ends in `Ok(res)` and no branch returns `Err`. -/
def tokenize (line : Str) : PRes (List Token) :=
  let command_idx := line.findIdx? (fun c => COMMANDS.contains c)
  let addr_part := match command_idx with
    | none => line
    | some idx => line.take idx
  let addr_separator_idx := addr_part.findIdx? (fun c => c == ',' || c == ';')
  let step1 : List Token × Str := match addr_separator_idx with
    | none => ([], addr_part)
    | some idx =>
      let addr := addr_part.take idx
      ((if addr ≠ [] then [Token.Address addr] else []) ++
        [Token.Separator (addr_part.getD idx ' ')],
       addr_part.drop (idx + 1))
  let res := step1.1 ++ (if step1.2 ≠ [] then [Token.Address step1.2] else [])
  let step2 : List Token × Nat := match command_idx with
    | none => (res, line.length)
    | some idx => (res ++ [Token.Command (line.getD idx ' ')], idx + 1)
  let res := step2.1
  let after_cmd_idx := step2.2
  let res :=
    if after_cmd_idx < line.length then
      let suffix_char := line.getD after_cmd_idx ' '
      if suffix_char = ' ' then
        let arg := trimStr (line.drop (after_cmd_idx + 1))
        res ++ (if arg ≠ [] then [Token.Argument arg] else [])
      else
        let arg := line.drop after_cmd_idx
        match arg.findIdx? (fun c => c == ' ') with
        | none => res ++ [Token.Suffix arg]
        | some idx =>
          res ++ [Token.Suffix (arg.take idx)] ++
            (if (arg.drop (idx + 1)).length > 0 then [Token.Argument (arg.drop (idx + 1))]
             else [])
    else res
  .ok res

/-- Rust `str::parse::<usize>` restricted to plain digit strings (the sign
prefixes are peeled off by the caller before this is reached). -/
def parseNatDigits (s : Str) : Option Nat :=
  if s ≠ [] ∧ s.all Char.isDigit then
    some (s.foldl (fun acc c => acc * 10 + (c.toNat - 48)) 0)
  else none

/-- `parser.rs`: `parse_address`.  `&addr[0..1]` on an empty string panics in
the source, hence the `panic` outcome for `[]`. -/
def parse_address (addr : Str) : PRes Address :=
  if addr = ['.'] then .ok .CurrentLine
  else if addr = ['$'] then .ok .LastLine
  else
    match addr with
    | [] => .panic
    | c :: rest =>
      if c = '+' ∨ c = '-' then
        match parseNatDigits rest with
        | some n => .ok (.Offset (if c = '-' then -(n : Int) else (n : Int)))
        | none => .err "Invalid address"
      else
        match parseNatDigits (c :: rest) with
        | some n => .ok (.Numbered n)
        | none => .err "Invalid address"

/-- The accumulator of `parse`'s token loop. -/
structure ParseState where
  start : Option Address
  endA : Option Address
  arg : Option Str
  cmd : Option Char
  first_addr : Bool
  separator_found : Bool
deriving DecidableEq, Repr

/-- `parser.rs`: the `for token in tokens` loop of `parse`.  `Suffix` tokens
fall into the `_ => {}` arm and are dropped. -/
def parseLoop : List Token → ParseState → PRes ParseState
  | [], st => .ok st
  | t :: rest, st =>
    match t with
    | .Address a =>
      match parse_address a with
      | .ok A =>
        if !st.first_addr then parseLoop rest { st with start := some A, first_addr := true }
        else parseLoop rest { st with endA := some A }
      | .err m => .err m
      | .panic => .panic
    | .Separator _ => parseLoop rest { st with separator_found := true, first_addr := true }
    | .Argument a => parseLoop rest { st with arg := some a }
    | .Command c => parseLoop rest { st with cmd := some c }
    | .Suffix _ => parseLoop rest st

/-- `parser.rs`: `parse`.  The letters `m`, `s`, `r` and `Q` have no arm in
the source's final `match` and fall into `_ => Command::Noop`.  The source's
`'q' => Command::Quit` carries no `force` payload (it does not even type-check
against `commands.rs`'s `Quit { force: bool }`); it is modelled as the
unforced quit. -/
def parse (tokens : List Token) : PRes Command :=
  if tokens = [] then .ok .Noop
  else
    match parseLoop tokens ⟨none, none, none, none, false, false⟩ with
    | .err m => .err m
    | .panic => .panic
    | .ok st =>
      let pair :=
        if st.separator_found ∧ st.start = none ∧ st.endA = none then
          (some (Address.Numbered 1), some Address.LastLine)
        else (st.start, st.endA)
      let start := pair.1
      let endA := pair.2
      match st.cmd with
      | none =>
        match start, endA with
        | some A, none => .ok (.Jump A)
        | _, _ => .ok .Noop
      | some c =>
        .ok (match c with
          | 'p' => .Print start endA
          | 'n' => .Numbered start endA
          | 'd' => .Delete start endA
          | 'w' => .Write start endA st.arg
          | 'i' => .Insert (start.or endA)
          | 'a' => .Append (endA.or start)
          | 'h' => .Help
          | 'q' => .Quit false
          | 'e' => .Edit st.arg
          | 'c' => .Change start endA
          | _ => .Noop)

/-- Modelled `regex` collaborator: `Regex::replace` of a literal pattern
rewrites the leftmost occurrence of `pat` (an empty pattern matches at
position 0). -/
def replaceFirst (pat rep : Str) (s : Str) : Str :=
  if pat.isPrefixOf s then rep ++ s.drop pat.length
  else
    match s with
    | [] => []
    | c :: rest => c :: replaceFirst pat rep rest

/-- Recursion core of `replaceAll`; the fuel strictly exceeds the number of
characters still to scan, so the fuel-exhausted branch is never reached when
called with `s.length + 1`. -/
def replaceAllGo (pat rep : Str) : Nat → Str → Str
  | 0, s => s
  | fuel + 1, s =>
    if pat ≠ [] ∧ pat.isPrefixOf s then rep ++ replaceAllGo pat rep fuel (s.drop pat.length)
    else
      match s with
      | [] => []
      | c :: rest => c :: replaceAllGo pat rep fuel rest

/-- Modelled `regex` collaborator: `Regex::replace_all` of a literal
non-empty pattern rewrites every non-overlapping occurrence, scanning left to
right and not rescanning replacement text. -/
def replaceAll (pat rep : Str) (s : Str) : Str :=
  replaceAllGo pat rep (s.length + 1) s

/-- `Vec::insert(n, x)`: well-defined for `n ≤ l.length` (callers guard and
model the out-of-range panic separately). -/
def insertAt (l : List Str) (n : Nat) (x : Str) : List Str :=
  l.take n ++ x :: l.drop n

namespace Command

/-- `commands.rs`: `Command::get_actual_line`. -/
def get_actual_line (ed : Red) (addr : Address) : PRes Nat :=
  match addr with
  | .CurrentLine => .ok ed.current_line
  | .LastLine => .ok ed.lines
  | .Numbered n => if ed.lines < n then .err "Invalid address" else .ok n
  | .Offset n =>
    let line : Int := (ed.current_line : Int) + n
    if line < 1 then .err "Invalid address"
    else if ed.lines < line.toNat then .err "Invalid address"
    else .ok line.toNat

/-- The `addr.map(|a| get_actual_line(a)).unwrap_or_else(|| Ok(current_line))`
idiom used by `insert`, `append`, `read` and `substitute`. -/
def resolveOrCurrent (ed : Red) : Option Address → PRes Nat
  | some a => get_actual_line ed a
  | none => .ok ed.current_line

/-- `commands.rs`: `Command::write_range` (the output sink is dropped; the
state transitions, the empty-buffer failure, and the `get_line(..).unwrap()`
panics are kept). -/
def write_range (ed : Red) (start endA : Option Address) (_show_number : Bool) : ExecResult :=
  if ed.data = [] then .err ed "Invalid address"
  else
    match start, endA with
    | none, none =>
      match ed.get_line ed.current_line with
      | none => .panic
      | some _ => .ok ed .Continue
    | some s, none =>
      match get_actual_line ed s with
      | .err m => .err ed m
      | .panic => .panic
      | .ok n =>
        match Red.get_line { ed with current_line := n } n with
        | none => .panic
        | some _ => .ok { ed with current_line := n } .Continue
    | none, some e =>
      match get_actual_line ed e with
      | .err m => .err ed m
      | .panic => .panic
      | .ok n =>
        -- the loop `for line in 1..=n` unwraps `get_line(line)`; it panics
        -- iff some line in the range is out of bounds, i.e. iff `n > lines`
        if ed.lines < n then .panic
        else .ok { ed with current_line := n } .Continue
    | some s, some e =>
      match get_actual_line ed s with
      | .err m => .err ed m
      | .panic => .panic
      | .ok a =>
        match get_actual_line ed e with
        | .err m => .err ed m
        | .panic => .panic
        | .ok b =>
          -- the loop `for line in a..=b` unwraps `get_line(line)`; it panics
          -- iff the range is non-empty and reaches an out-of-bounds line
          if a ≤ b ∧ (a = 0 ∨ ed.lines < b) then .panic
          else .ok { ed with current_line := b } .Continue

/-- `commands.rs`: `Command::print` (stdout dropped). -/
def print (ed : Red) (start endA : Option Address) : ExecResult :=
  write_range ed start endA false

/-- `commands.rs`: `Command::numbered` (stdout dropped). -/
def numbered (ed : Red) (start endA : Option Address) : ExecResult :=
  write_range ed start endA true

/-- `commands.rs`: `Command::noop`. -/
def noop (ed : Red) : ExecResult :=
  if ed.current_line < ed.lines then
    print { ed with current_line := ed.current_line + 1 } none none
  else .ok ed .Unknown

/-- `commands.rs`: `Command::help` (it only prints `last_error`). -/
def help (ed : Red) : ExecResult := .ok ed .Continue

/-- `commands.rs`: `Command::quit`. -/
def quit (ed : Red) (force : Bool) : ExecResult :=
  if !force ∧ ed.dirty then .err { ed with dirty := false } "Warning: buffer modified"
  else .ok ed .Quit

/-- `commands.rs`: `Command::jump`. -/
def jump (ed : Red) (addr : Address) : ExecResult :=
  match addr with
  | .CurrentLine => print ed none none
  | .LastLine =>
    match ed.set_line ed.lines with
    | .err m => .err ed m
    | .panic => .panic
    | .ok ed' => print ed' none none
  | .Numbered n =>
    match ed.set_line n with
    | .err m => .err ed m
    | .panic => .panic
    | .ok ed' => print ed' none none
  | .Offset n =>
    let new_line : Int := (ed.current_line : Int) + n
    if new_line < 1 then .err ed "Invalid address"
    else
      match ed.set_line new_line.toNat with
      | .err m => .err ed m
      | .panic => .panic
      | .ok ed' => print ed' none none

/-- `commands.rs`: `Command::delete`.  `remove(line - 1)` with `line = 0` or
`line > len` is the modelled index panic; the repeated `remove(start - 1)` of
the two-address arm equals dropping the segment `start..=end`. -/
def delete (ed : Red) (start endA : Option Address) : ExecResult :=
  if ed.data = [] then .err ed "Invalid address"
  else
    match start, endA with
    | none, none =>
      let line := ed.current_line
      if line = 0 ∨ ed.data.length < line then .panic
      else
        let data' := ed.data.eraseIdx (line - 1)
        .ok { ed with data := data', dirty := true, current_line := min line data'.length }
          .Continue
    | some s, none =>
      match get_actual_line ed s with
      | .err m => .err ed m
      | .panic => .panic
      | .ok line =>
        if line = 0 ∨ ed.data.length < line then .panic
        else
          let data' := ed.data.eraseIdx (line - 1)
          .ok { ed with data := data', dirty := true, current_line := min line data'.length }
            .Continue
    | none, some e =>
      match get_actual_line ed e with
      | .err m => .err ed m
      | .panic => .panic
      | .ok endL =>
        if ed.data.length < endL then .panic
        else
          let data' := ed.data.drop endL
          .ok { ed with data := data', dirty := true, current_line := min endL data'.length }
            .Continue
    | some s, some e =>
      match get_actual_line ed s with
      | .err m => .err ed m
      | .panic => .panic
      | .ok startL =>
        match get_actual_line ed e with
        | .err m => .err ed m
        | .panic => .panic
        | .ok endL =>
          if startL ≤ endL then
            if startL = 0 ∨ ed.data.length < endL then .panic
            else
              let data' := ed.data.take (startL - 1) ++ ed.data.drop endL
              let ed' := { ed with data := data', dirty := true, current_line := min startL data'.length }
              .ok ed' .Continue
          else
            -- `for _ in start..=end` is empty: nothing is removed, but the
            -- dirty flag is still set and the cursor reconciled
            .ok { ed with dirty := true, current_line := min startL ed.data.length } .Continue

/-- `commands.rs`: `Command::write` (file creation and the byte-count report
are modelled as succeeding; `write_range` supplies the state transitions). -/
def write (ed : Red) (start endA : Option Address) (file : Option Str) : ExecResult :=
  match file.or ed.path with
  | none => .ok ed .Unknown
  | some path =>
    let pair :=
      if start = none ∧ endA = none then (some (Address.Numbered 1), some Address.LastLine)
      else (start, endA)
    match write_range ed pair.1 pair.2 false with
    | .err ed' m => .err ed' m
    | .panic => .panic
    | .ok ed' _ => .ok { ed' with path := some path, dirty := false } .Continue

/-- `commands.rs`: `Command::insert`. -/
def insert (ed : Red) (before : Option Address) : ExecResult :=
  match resolveOrCurrent ed before with
  | .err m => .err ed m
  | .panic => .panic
  | .ok addr =>
    let addr := if addr > 0 then addr - 1 else addr
    .ok { ed with current_line := addr, mode := .Input } .Continue

/-- `commands.rs`: `Command::append`. -/
def append (ed : Red) (after : Option Address) : ExecResult :=
  match resolveOrCurrent ed after with
  | .err m => .err ed m
  | .panic => .panic
  | .ok addr => .ok { ed with current_line := addr, mode := .Input } .Continue

/-- `commands.rs`: `Command::edit`, inlining `red.rs`: `Red::load_file`.
Note `load_file` replaces path, data and cursor but never touches `dirty`. -/
def edit (fs : FileSys) (ed : Red) (file : Option Str) : ExecResult :=
  match file.or ed.path with
  | none => .err ed "No current filename"
  | some f =>
    match fs f with
    | none => .err ed "No such file or directory"
    | some newData =>
      .ok { ed with path := some f, data := newData, current_line := newData.length } .Continue

/-- `commands.rs`: `Command::change`. -/
def change (ed : Red) (start endA : Option Address) : ExecResult :=
  match delete ed start endA with
  | .err ed' m => .err ed' m
  | .panic => .panic
  | .ok ed' _ =>
    let addr := ed'.current_line
    let addr := if addr > 0 then addr - 1 else addr
    .ok { ed' with current_line := addr, mode := .Input, dirty := true } .Continue

/-- The insertion loop of `commands.rs`: `Command::read`: push when the buffer
is empty, otherwise `insert(addr, line)` (panicking when `addr > len`),
incrementing `addr` after each line.  Returns the final data and cursor. -/
def readLoop (data : List Str) (addr : Nat) : List Str → Option (List Str × Nat)
  | [] => some (data, addr)
  | line :: rest =>
    if data = [] then readLoop [line] (addr + 1) rest
    else if data.length < addr then none
    else readLoop (insertAt data addr line) (addr + 1) rest

/-- `commands.rs`: `Command::read` (the byte-count report is dropped). -/
def read (fs : FileSys) (ed : Red) (after : Option Address) (file : Option Str) : ExecResult :=
  match file.or ed.path with
  | none => .err ed "No current filename"
  | some f =>
    match fs f with
    | none => .err ed "No such file or directory"
    | some newData =>
      match resolveOrCurrent ed after with
      | .err m => .err ed m
      | .panic => .panic
      | .ok addr =>
        match readLoop ed.data addr newData with
        | none => .panic
        | some (data', addr') =>
          .ok { ed with data := data', dirty := true, current_line := addr' } .Continue

/-- `commands.rs`: `Command::move_lines`.  Each arm resolves the destination
first, checks the self-move condition, removes the source lines, adjusts the
destination, reinserts, and finishes with `set_line`.  `Vec::remove` /
`Vec::insert` out of range are the modelled panics. -/
def move_lines (ed : Red) (start endA : Option Address) (dest : Address) : ExecResult :=
  if ed.data = [] then .ok ed .Continue
  else
    match get_actual_line ed dest with
    | .err m => .err ed m
    | .panic => .panic
    | .ok dest0 =>
      match start, endA with
      | none, none =>
        let line_no := ed.current_line
        if line_no = dest0 then .err ed "Invalid destination"
        else if line_no = 0 ∨ ed.data.length < line_no then .panic
        else
          let line := ed.data.getD (line_no - 1) []
          let data₁ := ed.data.eraseIdx (line_no - 1)
          let dest₁ := if dest0 > line_no then dest0 - 1 else dest0
          if data₁.length < dest₁ then .panic
          else
            let ed₁ := { ed with data := insertAt data₁ dest₁ line }
            match ed₁.set_line dest₁ with
            | .err m => .err ed₁ m
            | .panic => .panic
            | .ok ed₂ => .ok { ed₂ with dirty := true } .Continue
      | some s, none =>
        match get_actual_line ed s with
        | .err m => .err ed m
        | .panic => .panic
        | .ok line_no =>
          if line_no = dest0 then .err ed "Invalid destination"
          else if line_no = 0 ∨ ed.data.length < line_no then .panic
          else
            let line := ed.data.getD (line_no - 1) []
            let data₁ := ed.data.eraseIdx (line_no - 1)
            let dest₁ := if dest0 > line_no then dest0 - 1 else dest0
            if data₁.length < dest₁ then .panic
            else
              let ed₁ := { ed with data := insertAt data₁ dest₁ line }
              match ed₁.set_line (max dest₁ 1) with
              | .err m => .err ed₁ m
              | .panic => .panic
              | .ok ed₂ => .ok { ed₂ with dirty := true } .Continue
      | none, some e =>
        match get_actual_line ed e with
        | .err m => .err ed m
        | .panic => .panic
        | .ok endL =>
          if dest0 ≤ endL then .err ed "Invalid destination"
          else if ed.data.length < endL then .panic
          else
            let lines := ed.data.take endL
            let data₁ := ed.data.drop endL
            let dest₁ := dest0 - endL
            if data₁.length < dest₁ then .panic
            else
              let ed₁ := { ed with data := data₁.take dest₁ ++ lines ++ data₁.drop dest₁ }
              match ed₁.set_line (dest₁ + lines.length) with
              | .err m => .err ed₁ m
              | .panic => .panic
              | .ok ed₂ => .ok { ed₂ with dirty := true } .Continue
      | some s, some e =>
        match get_actual_line ed s with
        | .err m => .err ed m
        | .panic => .panic
        | .ok startL =>
          match get_actual_line ed e with
          | .err m => .err ed m
          | .panic => .panic
          | .ok endL =>
            if startL ≤ dest0 ∧ dest0 ≤ endL then .err ed "Invalid destination"
            else if startL ≤ endL then
              if startL = 0 ∨ ed.data.length < endL then .panic
              else
                let lines := (ed.data.drop (startL - 1)).take (endL - startL + 1)
                let data₁ := ed.data.take (startL - 1) ++ ed.data.drop endL
                let dest₁ := if endL < dest0 then dest0 - lines.length else dest0
                if data₁.length < dest₁ then .panic
                else
                  let ed₁ := { ed with data := data₁.take dest₁ ++ lines ++ data₁.drop dest₁ }
                  match ed₁.set_line (dest₁ + lines.length) with
                  | .err m => .err ed₁ m
                  | .panic => .panic
                  | .ok ed₂ => .ok { ed₂ with dirty := true } .Continue
            else
              -- `for _ in start..=end` is empty: nothing removed, no
              -- adjustment, nothing inserted; only `set_line(dest)` runs
              match ed.set_line dest0 with
              | .err m => .err ed m
              | .panic => .panic
              | .ok ed₂ => .ok { ed₂ with dirty := true } .Continue

/-- The `for (line, idx) in slice.iter_mut().zip(start..end)` loop of
`Command::substitute`: rewrites each line with `f`, remembering the 1-based
number of the last line actually changed. -/
def substIter (f : Str → Str) : List Str → Nat → List Str × Option Nat
  | [], _ => ([], none)
  | line :: rest, idx =>
    let new := f line
    let res := substIter f rest (idx + 1)
    if new = line then (line :: res.1, res.2)
    else (new :: res.1, res.2.or (some (idx + 1)))

/-- The second half of `commands.rs`: `Command::substitute`, from the point
where pattern, replacement and flags have been extracted from the argument:
resolve the range, rewrite the sliced lines, set the cursor to the last
modified line and print it.  The slice `ed.data[start..end]` with
`start > end` or `end > len` is the modelled panic. -/
def substCore (ed : Red) (start endA : Option Address) (re replacement flags : Str) :
    ExecResult :=
  let all := flags.contains 'g'
  match resolveOrCurrent ed start with
  | .err m => .err ed m
  | .panic => .panic
  | .ok startL =>
    match resolveOrCurrent ed endA with
    | .err m => .err ed m
    | .panic => .panic
    | .ok endL =>
      if startL = 0 then .err ed "Invalid address"
      else
        let start0 := startL - 1
        if endL < start0 ∨ ed.data.length < endL then .panic
        else
          let f := fun line =>
            if all then replaceAll re replacement line
            else replaceFirst re replacement line
          let res := substIter f ((ed.data.drop start0).take (endL - start0)) start0
          match res.2 with
          | none => .err ed "No match"
          | some idx =>
            let ed₁ := { ed with data := ed.data.take start0 ++ res.1 ++ ed.data.drop endL, dirty := true }
            match ed₁.set_line idx with
            | .err m => .err ed₁ m
            | .panic => .panic
            | .ok ed₂ => print ed₂ none none

/-- `commands.rs`: `Command::substitute`.  `&arg[0..=0]` on an empty argument
is the modelled panic; `Regex::new` on a literal pattern always succeeds. -/
def substitute (ed : Red) (start endA : Option Address) (arg : Option Str) : ExecResult :=
  match arg with
  | none => .err ed "No previous substitution"
  | some [] => .panic
  | some (c :: arg') =>
    if c ≠ '/' then .err ed "Missing pattern delimiter"
    else
      match arg'.findIdx? (fun ch => ch == '/') with
      | none => .err ed "Missing pattern delimiter"
      | some regex_end =>
        let re := arg'.take regex_end
        let rest := arg'.drop (regex_end + 1)
        let pairRF :=
          match rest.findIdx? (fun ch => ch == '/') with
          | none => (rest, ([] : Str))
          | some idx => (rest.take idx, rest.drop (idx + 1))
        substCore ed start endA re pairRF.1 pairRF.2

/-- `commands.rs`: `Command::execute`. -/
def execute (fs : FileSys) (cmd : Command) (ed : Red) : ExecResult :=
  match cmd with
  | .Noop => noop ed
  | .Help => help ed
  | .Quit force => quit ed force
  | .Jump a => jump ed a
  | .Print s e => print ed s e
  | .Numbered s e => numbered ed s e
  | .Delete s e => delete ed s e
  | .Write s e f => write ed s e f
  | .Insert b => insert ed b
  | .Append a => append ed a
  | .Edit f => edit fs ed f
  | .Change s e => change ed s e
  | .Read a f => read fs ed a f
  | .Move s e d => move_lines ed s e d
  | .Substitute s e a => substitute ed s e a

end Command

/-- The source range moved by each `(start, end)` shape of
`Command::move_lines`: the addressed single line for the one-address arms,
the cursor line for the default arm, and `1..=end` for the `(None, Some)`
arm. -/
def moveSourceRange (ed : Red) : Option Address → Option Address → PRes (Nat × Nat)
  | none, none => .ok (ed.current_line, ed.current_line)
  | some a, none =>
    match Command.get_actual_line ed a with
    | .ok n => .ok (n, n)
    | .err m => .err m
    | .panic => .panic
  | none, some b =>
    match Command.get_actual_line ed b with
    | .ok n => .ok (1, n)
    | .err m => .err m
    | .panic => .panic
  | some a, some b =>
    match Command.get_actual_line ed a with
    | .ok n =>
      match Command.get_actual_line ed b with
      | .ok k => .ok (n, k)
      | .err m => .err m
      | .panic => .panic
    | .err m => .err m
    | .panic => .panic

/-- Locating the first `/` after a slash-free segment. -/
theorem findIdx_slash (l r : Str) (h : ('/' : Char) ∉ l) (i : Nat) :
    List.findIdx? (fun ch => ch == '/') (l ++ '/' :: r) i = some (i + l.length) := by
  induction l generalizing i with
  | nil => simp [List.findIdx?_cons]
  | cons c cs ih =>
    have hc : (c == '/') = false := by
      simp only [beq_eq_false_iff_ne, ne_eq]
      intro hcc
      exact h (hcc ▸ List.mem_cons_self c cs)
    have hcs : ('/' : Char) ∉ cs := fun hm => h (List.mem_cons_of_mem _ hm)
    rw [List.cons_append, List.findIdx?_cons, hc]
    simp only [Bool.false_eq_true, if_false, ih hcs]
    congr 1
    simp only [List.length_cons]
    omega

/-- An in-bounds `getD` is a member. -/
theorem getD_mem (l : List Str) (k : Nat) (h : k < l.length) : l.getD k [] ∈ l := by
  rw [List.getD_eq_getElem?_getD, List.getElem?_eq_getElem h]
  exact List.getElem_mem h

/-- Pointwise fixpoint of `f` over a list, phrased through `getD`. -/
theorem forall_mem_iff_getD (f : Str → Str) (l : List Str) :
    (∀ x ∈ l, f x = x) ↔ ∀ k, k < l.length → f (l.getD k []) = l.getD k [] := by
  constructor
  · intro h k hk
    exact h _ (getD_mem l k hk)
  · intro h x hx
    obtain ⟨k, hk, rfl⟩ := List.mem_iff_getElem.mp hx
    have := h k hk
    rwa [List.getD_eq_getElem?_getD, List.getElem?_eq_getElem hk, Option.getD_some] at this

/-- Reading inside the sliced segment `data[a..b]`. -/
theorem slice_getD (data : List Str) (a b k : Nat) (hk : k < b - a) :
    ((data.drop a).take (b - a)).getD k [] = data.getD (a + k) [] := by
  simp [List.getD_eq_getElem?_getD, List.getElem?_take, hk, List.getElem?_drop]

/-- Length of the sliced segment `data[a..b]` for `a ≤ b ≤ len`. -/
theorem slice_length (data : List Str) (a b : Nat) (hab : a ≤ b) (hb : b ≤ data.length) :
    ((data.drop a).take (b - a)).length = b - a := by
  simp only [List.length_take, List.length_drop]
  omega

/-- The loop of `substitute` returns the slice with `f` applied to every
line (a line with no match is returned unchanged, which is the same line). -/
theorem substIter_fst (f : Str → Str) (l : List Str) (i : Nat) :
    (Command.substIter f l i).1 = l.map f := by
  induction l generalizing i with
  | nil => rfl
  | cons x xs ih =>
    simp only [Command.substIter, List.map_cons]
    by_cases h : f x = x
    · simp [h, ih]
    · simp [h, ih]

/-- The loop of `substitute` records no modified line exactly when `f` fixes
every line of the slice. -/
theorem substIter_snd_none (f : Str → Str) (l : List Str) (i : Nat) :
    (Command.substIter f l i).2 = none ↔ ∀ x ∈ l, f x = x := by
  induction l generalizing i with
  | nil => simp [Command.substIter]
  | cons x xs ih =>
    simp only [Command.substIter]
    by_cases h : f x = x
    · simpa [h] using ih (i + 1)
    · simp only [if_neg h]
      constructor
      · intro hcon
        exact absurd hcon (by cases hor : (Command.substIter f xs (i + 1)).2 <;> simp [hor, Option.or])
      · intro hall
        exact absurd (hall x (List.mem_cons_self x xs)) h

/-- When the loop of `substitute` records a modified line `m` (1-based), `m`
lies inside the range, the line at `m` is genuinely changed by `f`, and every
line after `m` in the slice is fixed by `f` — `m` is the last modified
line. -/
theorem substIter_snd_some (f : Str → Str) (l : List Str) (i m : Nat)
    (h : (Command.substIter f l i).2 = some m) :
    i < m ∧ m ≤ i + l.length ∧ f (l.getD (m - i - 1) []) ≠ l.getD (m - i - 1) []
      ∧ ∀ j, m - i ≤ j → j < l.length → f (l.getD j []) = l.getD j [] := by
  induction l generalizing i with
  | nil => simp [Command.substIter] at h
  | cons x xs ih =>
    simp only [Command.substIter] at h
    by_cases hx : f x = x
    · rw [if_pos hx] at h
      dsimp at h
      obtain ⟨h1, h2, h3, h4⟩ := ih (i + 1) h
      refine ⟨by omega, by simp only [List.length_cons]; omega, ?_, ?_⟩
      · have heq : m - i - 1 = (m - (i + 1) - 1) + 1 := by omega
        rw [heq]
        simpa using h3
      · intro j hj1 hj2
        obtain ⟨j', rfl⟩ : ∃ j', j = j' + 1 := ⟨j - 1, by omega⟩
        simp only [List.getD_cons_succ]
        exact h4 j' (by omega) (by simpa using hj2)
    · rw [if_neg hx] at h
      dsimp at h
      rcases hr : (Command.substIter f xs (i + 1)).2 with _ | m'
      · rw [hr] at h
        simp only [Option.or, Option.some.injEq] at h
        subst h
        refine ⟨by omega, by simp only [List.length_cons]; omega, ?_, ?_⟩
        · have heq : i + 1 - i - 1 = 0 := by omega
          rw [heq]
          simpa using hx
        · intro j hj1 hj2
          obtain ⟨j', rfl⟩ : ∃ j', j = j' + 1 := ⟨j - 1, by omega⟩
          have hall := (substIter_snd_none f xs (i + 1)).mp hr
          simp only [List.getD_cons_succ]
          exact hall _ (getD_mem xs j' (by simpa using hj2))
      · rw [hr] at h
        simp only [Option.or, Option.some.injEq] at h
        subst h
        obtain ⟨h1, h2, h3, h4⟩ := ih (i + 1) hr
        refine ⟨by omega, by simp only [List.length_cons]; omega, ?_, ?_⟩
        · have heq : m' - i - 1 = (m' - (i + 1) - 1) + 1 := by omega
          rw [heq]
          simpa using h3
        · intro j hj1 hj2
          obtain ⟨j', rfl⟩ : ∃ j', j = j' + 1 := ⟨j - 1, by omega⟩
          simp only [List.getD_cons_succ]
          exact h4 j' (by omega) (by simpa using hj2)

/-- Length of the spliced buffer `take a ++ map f slice ++ drop b`. -/
theorem splice_length (data : List Str) (a b : Nat) (f : Str → Str)
    (hab : a ≤ b) (hb : b ≤ data.length) :
    (data.take a ++ ((data.drop a).take (b - a)).map f ++ data.drop b).length
      = data.length := by
  simp only [List.length_append, List.length_map, List.length_take, List.length_drop]
  omega

/-- Pointwise description of the spliced buffer: inside `[a, b)` the line is
rewritten by `f`, outside it is untouched. -/
theorem splice_getD (data : List Str) (a b i : Nat) (f : Str → Str)
    (hab : a ≤ b) (hb : b ≤ data.length) :
    (data.take a ++ ((data.drop a).take (b - a)).map f ++ data.drop b).getD i []
      = if a ≤ i ∧ i < b then f (data.getD i []) else data.getD i [] := by
  have hlt : a ≤ data.length := le_trans hab hb
  have hm1 : (data.take a).length = a := by
    simp only [List.length_take]
    omega
  have hm2 : (((data.drop a).take (b - a)).map f).length = b - a := by
    simp only [List.length_map, List.length_take, List.length_drop]
    omega
  rw [List.append_assoc, List.getD_eq_getElem?_getD, List.getElem?_append, hm1]
  by_cases h1 : i < a
  · rw [if_pos h1, if_neg (by omega), List.getElem?_take, if_pos h1,
      List.getD_eq_getElem?_getD]
  · rw [if_neg h1, List.getElem?_append, hm2]
    by_cases h2 : i < b
    · rw [if_pos (by omega), if_pos (by omega), List.getElem?_map, List.getElem?_take,
        if_pos (by omega), List.getElem?_drop]
      have heq : a + (i - a) = i := by omega
      rw [heq, List.getElem?_eq_getElem (by omega : i < data.length)]
      simp [List.getD_eq_getElem?_getD, List.getElem?_eq_getElem (by omega : i < data.length)]
    · rw [if_neg (by omega), if_neg (by omega)]
      simp only [hm1, hm2, List.getElem?_drop, List.getD_eq_getElem?_getD]
      congr 2
      omega

/-- A slash-free string contains no slash to find. -/
theorem findIdx_slash_none (l : Str) (h : ('/' : Char) ∉ l) (i : Nat) :
    List.findIdx? (fun ch => ch == '/') l i = none := by
  induction l generalizing i with
  | nil => simp
  | cons c cs ih =>
    have hc : (c == '/') = false := by
      simp only [beq_eq_false_iff_ne, ne_eq]
      intro hcc
      exact h (hcc ▸ List.mem_cons_self c cs)
    rw [List.findIdx?_cons, hc]
    simp only [Bool.false_eq_true, if_false]
    exact ih (fun hm => h (List.mem_cons_of_mem _ hm)) (i + 1)

/-- Dropping a segment and the delimiter right after it. -/
theorem drop_append_cons (l : Str) (c : Char) (r : Str) :
    (l ++ c :: r).drop (l.length + 1) = r := by
  induction l with
  | nil => simp
  | cons x xs ih => simp [ih]

/-- A well-formed `/pattern/replacement[/flags]` argument is split by
`substitute` into exactly its pattern, replacement and flag parts, after
which the shared `substCore` runs. -/
theorem substitute_parses_arg (ed : Red) (start endA : Option Address)
    (pat rest2 rep flags : Str) (hpat : ('/' : Char) ∉ pat)
    (hform : (rest2 = rep ++ '/' :: flags ∧ ('/' : Char) ∉ rep)
      ∨ (rest2 = rep ∧ ('/' : Char) ∉ rep ∧ flags = [])) :
    Command.substitute ed start endA (some ('/' :: (pat ++ '/' :: rest2)))
      = Command.substCore ed start endA pat rep flags := by
  simp only [Command.substitute]
  rw [if_neg (by simp)]
  rw [findIdx_slash pat rest2 hpat 0]
  simp only [Nat.zero_add, List.take_left, drop_append_cons]
  rcases hform with ⟨hr, hrep⟩ | ⟨hr, hrep, hfl⟩
  · subst hr
    rw [findIdx_slash rep flags hrep 0]
    simp only [Nat.zero_add, List.take_left, drop_append_cons]
  · subst hfl
    rw [hr, findIdx_slash_none rep hrep 0]

/-- `set_line` succeeds exactly on in-bounds lines. -/
theorem set_line_ok (ed : Red) (n : Nat) (h1 : 1 ≤ n) (h2 : n ≤ ed.data.length) :
    Red.set_line ed n = .ok { ed with current_line := n } := by
  rw [Red.set_line, if_neg]
  simp only [Red.lines]
  omega

/-- Printing the current line succeeds whenever the cursor is in bounds. -/
theorem print_current_ok (ed : Red) (h1 : 1 ≤ ed.current_line)
    (h2 : ed.current_line ≤ ed.data.length) :
    Command.print ed none none = .ok ed .Continue := by
  rw [Command.print, Command.write_range, if_neg, Red.get_line, if_pos]
  · exact ⟨by omega, h2⟩
  · intro hnil
    rw [hnil] at h2
    simp only [List.length_nil] at h2
    omega

/-- Full behaviour of `substCore` on an in-bounds, well-ordered resolved
range `[s, e]`: if the rewrite fixes every line of the range the command
fails with "No match" leaving the state unchanged; otherwise it succeeds,
rewriting exactly the lines of the range, marking the buffer dirty and
placing the cursor on the last modified line. -/
theorem substCore_spec (ed : Red) (start endA : Option Address) (re rep flags : Str)
    (s e : Nat) (f : Str → Str)
    (hf : f = fun line =>
      if flags.contains 'g' then replaceAll re rep line else replaceFirst re rep line)
    (hs : Command.resolveOrCurrent ed start = .ok s)
    (he : Command.resolveOrCurrent ed endA = .ok e)
    (h1 : 1 ≤ s) (hse : s ≤ e) (hel : e ≤ ed.data.length) :
    ((∀ i, s - 1 ≤ i → i < e → f (ed.data.getD i []) = ed.data.getD i []) →
        Command.substCore ed start endA re rep flags = .err ed "No match")
    ∧ ((¬ ∀ i, s - 1 ≤ i → i < e → f (ed.data.getD i []) = ed.data.getD i []) →
        ∃ m, Command.substCore ed start endA re rep flags
            = .ok { ed with
                data := ed.data.take (s - 1) ++
                  ((ed.data.drop (s - 1)).take (e - (s - 1))).map f ++ ed.data.drop e,
                current_line := m, dirty := true } .Continue
          ∧ s ≤ m ∧ m ≤ e
          ∧ f (ed.data.getD (m - 1) []) ≠ ed.data.getD (m - 1) []
          ∧ ∀ j, m ≤ j → j < e → f (ed.data.getD j []) = ed.data.getD j []) := by
  have hslen : ((ed.data.drop (s - 1)).take (e - (s - 1))).length = e - (s - 1) :=
    slice_length ed.data (s - 1) e (by omega) hel
  have hfix_iff : (∀ x ∈ (ed.data.drop (s - 1)).take (e - (s - 1)), f x = x)
      ↔ (∀ i, s - 1 ≤ i → i < e → f (ed.data.getD i []) = ed.data.getD i []) := by
    rw [forall_mem_iff_getD, hslen]
    constructor
    · intro h i hi1 hi2
      have hk : i - (s - 1) < e - (s - 1) := by omega
      have := h (i - (s - 1)) hk
      rwa [slice_getD ed.data (s - 1) e _ hk,
        (by omega : s - 1 + (i - (s - 1)) = i)] at this
    · intro h k hk
      rw [slice_getD ed.data (s - 1) e k hk]
      exact h (s - 1 + k) (by omega) (by omega)
  simp only [Command.substCore, hs, he, if_neg (by omega : ¬ s = 0),
    if_neg (by omega : ¬ (e < s - 1 ∨ ed.data.length < e))]
  rw [← hf]
  constructor
  · intro hfix
    have hnone : (Command.substIter f ((ed.data.drop (s - 1)).take (e - (s - 1))) (s - 1)).2
        = none := by
      rw [substIter_snd_none]
      exact hfix_iff.mpr hfix
    rw [hnone]
  · intro hnfix
    rcases hm : (Command.substIter f ((ed.data.drop (s - 1)).take (e - (s - 1))) (s - 1)).2
      with _ | m
    · exact absurd (hfix_iff.mp ((substIter_snd_none f _ _).mp hm)) hnfix
    · obtain ⟨hm1, hm2, hm3, hm4⟩ := substIter_snd_some f _ (s - 1) m hm
      rw [hslen] at hm2
      have hms : s ≤ m := by omega
      have hme : m ≤ e := by omega
      have hnlen : (ed.data.take (s - 1) ++
          ((ed.data.drop (s - 1)).take (e - (s - 1))).map f ++ ed.data.drop e).length
          = ed.data.length :=
        splice_length ed.data (s - 1) e f (by omega) hel
      have hset := set_line_ok { ed with data := ed.data.take (s - 1) ++ ((ed.data.drop (s - 1)).take (e - (s - 1))).map f ++ ed.data.drop e, dirty := true } m (by omega)
        (show m ≤ (ed.data.take (s - 1) ++
            ((ed.data.drop (s - 1)).take (e - (s - 1))).map f ++ ed.data.drop e).length from by
          rw [hnlen]; omega)
      have hprint := print_current_ok { ed with data := ed.data.take (s - 1) ++ ((ed.data.drop (s - 1)).take (e - (s - 1))).map f ++ ed.data.drop e, dirty := true, current_line := m } (show (1 : Nat) ≤ m by omega)
        (show m ≤ (ed.data.take (s - 1) ++
            ((ed.data.drop (s - 1)).take (e - (s - 1))).map f ++ ed.data.drop e).length from by
          rw [hnlen]; omega)
      refine ⟨m, ?_, hms, hme, ?_, ?_⟩
      · simp only [hm, substIter_fst f, hset, hprint]
      · have hk : m - 1 - (s - 1) < e - (s - 1) := by omega
        have := hm3
        rwa [(by omega : m - (s - 1) - 1 = m - 1 - (s - 1)),
          slice_getD ed.data (s - 1) e _ hk,
          (by omega : s - 1 + (m - 1 - (s - 1)) = m - 1)] at this
      · intro j hj1 hj2
        have hk : j - (s - 1) < e - (s - 1) := by omega
        have := hm4 (j - (s - 1)) (by omega) (by rw [hslen]; omega)
        rwa [slice_getD ed.data (s - 1) e _ hk,
          (by omega : s - 1 + (j - (s - 1)) = j)] at this

/-- `substCore` never panics when its resolved range is in bounds and well
ordered, whatever the pattern, replacement and flags are. -/
theorem substCore_no_panic (ed : Red) (start endA : Option Address) (re rep flags : Str)
    (s e : Nat)
    (hs : Command.resolveOrCurrent ed start = .ok s)
    (he : Command.resolveOrCurrent ed endA = .ok e)
    (h1 : 1 ≤ s) (hse : s ≤ e) (hel : e ≤ ed.data.length) :
    Command.substCore ed start endA re rep flags ≠ .panic := by
  obtain ⟨hn, hsome⟩ := substCore_spec ed start endA re rep flags s e _ rfl hs he h1 hse hel
  by_cases hfix : ∀ i, s - 1 ≤ i → i < e →
      (fun line => if flags.contains 'g' then replaceAll re rep line
        else replaceFirst re rep line) (ed.data.getD i []) = ed.data.getD i []
  · rw [hn hfix]
    simp
  · obtain ⟨m, hok, _⟩ := hsome hfix
    rw [hok]
    simp

/-- Inversion of a successful `set_line`. -/
theorem set_line_ok_inv (ed : Red) (n : Nat) (ed₁ : Red)
    (h : Red.set_line ed n = .ok ed₁) :
    ed₁ = { ed with current_line := n } ∧ 1 ≤ n ∧ n ≤ ed.data.length := by
  rw [Red.set_line] at h
  split at h
  · cases h
  · cases h
    next hc =>
    refine ⟨rfl, ?_, ?_⟩ <;> (simp only [Red.lines, not_or, not_lt] at hc; omega)

/-- Inversion of a failing `set_line`. -/
theorem set_line_err_inv (ed : Red) (n : Nat) (m : String)
    (h : Red.set_line ed n = .err m) : n < 1 ∨ ed.data.length < n := by
  rw [Red.set_line] at h
  split at h
  · next hc => simpa [Red.lines] using hc
  · cases h

/-- `write_range` fails only before any state change. -/
theorem write_range_err_frame (ed : Red) (s e : Option Address) (b : Bool) (ed' : Red)
    (m : String) (h : Command.write_range ed s e b = .err ed' m) : ed' = ed := by
  rw [Command.write_range.eq_def] at h
  repeat' split at h
  all_goals first | (cases h; rfl) | cases h

/-- `noop` never returns an error. -/
theorem noop_no_err (ed ed' : Red) (m : String) : Command.noop ed ≠ .err ed' m := by
  rw [Command.noop]
  split
  · next hlt =>
    have h1 : 1 ≤ ({ ed with current_line := ed.current_line + 1 } : Red).current_line := by
      simp
    have h2 : ({ ed with current_line := ed.current_line + 1 } : Red).current_line
        ≤ ({ ed with current_line := ed.current_line + 1 } : Red).data.length := by
      simp only [Red.lines] at hlt
      simp only []
      omega
    rw [print_current_ok _ h1 h2]
    simp
  · simp

/-- `jump` fails only before any state change. -/
theorem jump_err_frame (ed : Red) (a : Address) (ed' : Red) (m : String)
    (h : Command.jump ed a = .err ed' m) : ed' = ed := by
  cases a with
  | CurrentLine =>
    simp only [Command.jump] at h
    exact write_range_err_frame ed none none false ed' m h
  | LastLine =>
    simp only [Command.jump] at h
    split at h
    · cases h
      rfl
    · cases h
    · rename_i ed₁ heq
      obtain ⟨rfl, h1, h2⟩ := set_line_ok_inv ed _ ed₁ heq
      rw [print_current_ok _ h1 h2] at h
      cases h
  | Numbered n =>
    simp only [Command.jump] at h
    split at h
    · cases h
      rfl
    · cases h
    · rename_i ed₁ heq
      obtain ⟨rfl, h1, h2⟩ := set_line_ok_inv ed _ ed₁ heq
      rw [print_current_ok _ h1 h2] at h
      cases h
  | Offset k =>
    simp only [Command.jump] at h
    split at h
    · cases h
      rfl
    · split at h
      · cases h
        rfl
      · cases h
      · rename_i ed₁ heq
        obtain ⟨rfl, h1, h2⟩ := set_line_ok_inv ed _ ed₁ heq
        rw [print_current_ok _ h1 h2] at h
        cases h

/-- `delete` fails only before any state change. -/
theorem delete_err_frame (ed : Red) (s e : Option Address) (ed' : Red) (m : String)
    (h : Command.delete ed s e = .err ed' m) : ed' = ed := by
  simp only [Command.delete] at h
  repeat' split at h
  all_goals first | (cases h; rfl) | cases h

/-- `write` fails only before any state change. -/
theorem write_err_frame (ed : Red) (s e : Option Address) (file : Option Str) (ed' : Red)
    (m : String) (h : Command.write ed s e file = .err ed' m) : ed' = ed := by
  simp only [Command.write] at h
  repeat' split at h
  all_goals cases h
  all_goals rename_i heq
  all_goals exact write_range_err_frame ed _ _ false ed' m heq

/-- `insert` fails only before any state change. -/
theorem insert_err_frame (ed : Red) (b : Option Address) (ed' : Red) (m : String)
    (h : Command.insert ed b = .err ed' m) : ed' = ed := by
  simp only [Command.insert] at h
  repeat' split at h
  all_goals first | (cases h; rfl) | cases h

/-- `append` fails only before any state change. -/
theorem append_err_frame (ed : Red) (a : Option Address) (ed' : Red) (m : String)
    (h : Command.append ed a = .err ed' m) : ed' = ed := by
  simp only [Command.append] at h
  repeat' split at h
  all_goals first | (cases h; rfl) | cases h

/-- `edit` fails only before any state change. -/
theorem edit_err_frame (fs : FileSys) (ed : Red) (file : Option Str) (ed' : Red) (m : String)
    (h : Command.edit fs ed file = .err ed' m) : ed' = ed := by
  simp only [Command.edit] at h
  repeat' split at h
  all_goals first | (cases h; rfl) | cases h

/-- `read` fails only before any state change. -/
theorem read_err_frame (fs : FileSys) (ed : Red) (a : Option Address) (file : Option Str)
    (ed' : Red) (m : String) (h : Command.read fs ed a file = .err ed' m) : ed' = ed := by
  simp only [Command.read] at h
  repeat' split at h
  all_goals first | (cases h; rfl) | cases h

/-- `change` fails only before any state change. -/
theorem change_err_frame (ed : Red) (s e : Option Address) (ed' : Red) (m : String)
    (h : Command.change ed s e = .err ed' m) : ed' = ed := by
  simp only [Command.change] at h
  repeat' split at h
  all_goals cases h
  all_goals rename_i heq
  all_goals exact delete_err_frame ed s e ed' m heq

/-- Length of a single insertion. -/
theorem insertAt_length (l : List Str) (n : Nat) (x : Str) (h : n ≤ l.length) :
    (insertAt l n x).length = l.length + 1 := by
  simp only [insertAt, List.length_append, List.length_take, List.length_cons,
    List.length_drop]
  omega

/-- Length of inserting a whole segment at position `p`. -/
theorem insert_segment_length (l seg : List Str) (p : Nat) (hp : p ≤ l.length) :
    (l.take p ++ seg ++ l.drop p).length = l.length + seg.length := by
  simp only [List.length_append, List.length_take, List.length_drop]
  omega

/-- `substCore` fails only before any state change: every `Err` it returns
carries the untouched editor state. -/
theorem substCore_err_frame (ed : Red) (start endA : Option Address) (re rep flags : Str)
    (ed' : Red) (m : String)
    (h : Command.substCore ed start endA re rep flags = .err ed' m) : ed' = ed := by
  rcases hS : Command.resolveOrCurrent ed start with s | mS | _
  · rcases hE : Command.resolveOrCurrent ed endA with e | mE | _
    · by_cases h0 : s = 0
      · have hred : Command.substCore ed start endA re rep flags = .err ed "Invalid address" := by
          simp [Command.substCore, hS, hE, h0]
        rw [hred] at h
        cases h
        rfl
      · by_cases hg : e < s - 1 ∨ ed.data.length < e
        · have hred : Command.substCore ed start endA re rep flags = .panic := by
            simp [Command.substCore, hS, hE, h0, hg]
          rw [hred] at h
          cases h
        · by_cases hes : s ≤ e
          · obtain ⟨hn, hsm⟩ :=
              substCore_spec ed start endA re rep flags s e _ rfl hS hE (by omega) hes
                (by omega)
            by_cases hfix : ∀ i, s - 1 ≤ i → i < e →
                (fun line => if flags.contains 'g' then replaceAll re rep line
                  else replaceFirst re rep line) (ed.data.getD i []) = ed.data.getD i []
            · rw [hn hfix] at h
              cases h
              rfl
            · obtain ⟨mm, hok, _⟩ := hsm hfix
              rw [hok] at h
              cases h
          · -- the resolved range is empty (e = s - 1): the slice is empty and
            -- the loop records no match
            have hred : Command.substCore ed start endA re rep flags = .err ed "No match" := by
              simp only [Command.substCore, hS, hE, if_neg h0, if_neg hg]
              rw [(by omega : e - (s - 1) = 0)]
              simp [Command.substIter]
            rw [hred] at h
            cases h
            rfl
    · have hred : Command.substCore ed start endA re rep flags = .err ed mE := by
        simp [Command.substCore, hS, hE]
      rw [hred] at h
      cases h
      rfl
    · have hred : Command.substCore ed start endA re rep flags = .panic := by
        simp [Command.substCore, hS, hE]
      rw [hred] at h
      cases h
  · have hred : Command.substCore ed start endA re rep flags = .err ed mS := by
      simp [Command.substCore, hS]
    rw [hred] at h
    cases h
    rfl
  · have hred : Command.substCore ed start endA re rep flags = .panic := by
      simp [Command.substCore, hS]
    rw [hred] at h
    cases h

/-- `substitute` fails only before any state change. -/
theorem substitute_err_frame (ed : Red) (s e : Option Address) (arg : Option Str)
    (ed' : Red) (m : String)
    (h : Command.substitute ed s e arg = .err ed' m) : ed' = ed := by
  rcases arg with _ | arg
  · simp only [Command.substitute] at h
    cases h
    rfl
  · rcases arg with _ | ⟨c, arg'⟩
    · simp only [Command.substitute] at h
      cases h
    · simp only [Command.substitute] at h
      split at h
      · cases h
        rfl
      · split at h
        · cases h
          rfl
        · exact substCore_err_frame ed s e _ _ _ ed' m h

/-- `move_lines` fails either before any state change, or — only in the
default-range arm with a destination resolving to 0 — after having moved the
current line to the front of the buffer. -/
theorem move_err_cases (ed : Red) (s e : Option Address) (d : Address) (ed' : Red)
    (m : String) (h : Command.move_lines ed s e d = .err ed' m) :
    ed' = ed
    ∨ (s = none ∧ e = none ∧ Command.get_actual_line ed d = .ok 0
      ∧ 1 ≤ ed.current_line ∧ ed'.current_line = ed.current_line ∧ ed'.dirty = ed.dirty
      ∧ ed'.data = ed.data.getD (ed.current_line - 1) []
          :: ed.data.eraseIdx (ed.current_line - 1)) := by
  simp only [Command.move_lines] at h
  split at h
  · cases h
  · rename_i hne
    have hpos : 0 < ed.data.length := List.length_pos.mpr hne
    split at h
    · cases h
      exact Or.inl rfl
    · cases h
    · rename_i dest0 hd
      split at h
      -- (None, None)
      · split at h
        · cases h
          exact Or.inl rfl
        · rename_i hneq
          split at h
          · cases h
          · rename_i hbound
            rw [not_or, not_lt] at hbound
            have herase : (ed.data.eraseIdx (ed.current_line - 1)).length
                = ed.data.length - 1 := by
              rw [List.length_eraseIdx, if_pos (by omega)]
            by_cases hgt : dest0 > ed.current_line
            · simp only [if_pos hgt] at h
              split at h
              · cases h
              · rename_i hins
                rw [not_lt, herase] at hins
                split at h
                · rename_i m₂ heq
                  exfalso
                  have hinv := set_line_err_inv _ _ _ heq
                  rw [insertAt_length _ _ _ (by omega : dest0 - 1 ≤ (ed.data.eraseIdx (ed.current_line - 1)).length), herase] at hinv
                  omega
                · cases h
                · cases h
            · simp only [if_neg hgt] at h
              split at h
              · cases h
              · rename_i hins
                rw [not_lt, herase] at hins
                split at h
                · rename_i m₂ heq
                  cases h
                  have hinv := set_line_err_inv _ _ _ heq
                  rw [insertAt_length _ _ _ (by omega : dest0 ≤ (ed.data.eraseIdx (ed.current_line - 1)).length), herase] at hinv
                  have hd0 : dest0 = 0 := by omega
                  subst hd0
                  refine Or.inr ⟨rfl, rfl, hd, by omega, rfl, rfl, ?_⟩
                  simp [insertAt]
                · cases h
                · cases h
      -- (Some, None)
      · split at h
        · cases h
          exact Or.inl rfl
        · cases h
        · rename_i line_no hline
          split at h
          · cases h
            exact Or.inl rfl
          · rename_i hneq
            split at h
            · cases h
            · rename_i hbound
              rw [not_or, not_lt] at hbound
              have herase : (ed.data.eraseIdx (line_no - 1)).length
                  = ed.data.length - 1 := by
                rw [List.length_eraseIdx, if_pos (by omega)]
              by_cases hgt : dest0 > line_no
              · simp only [if_pos hgt] at h
                split at h
                · cases h
                · rename_i hins
                  rw [not_lt, herase] at hins
                  split at h
                  · rename_i m₂ heq
                    exfalso
                    have hinv := set_line_err_inv _ _ _ heq
                    rw [insertAt_length _ _ _ (by omega : dest0 - 1 ≤ (ed.data.eraseIdx (line_no - 1)).length), herase] at hinv
                    omega
                  · cases h
                  · cases h
              · simp only [if_neg hgt] at h
                split at h
                · cases h
                · rename_i hins
                  rw [not_lt, herase] at hins
                  split at h
                  · rename_i m₂ heq
                    exfalso
                    have hinv := set_line_err_inv _ _ _ heq
                    rw [insertAt_length _ _ _ (by omega : dest0 ≤ (ed.data.eraseIdx (line_no - 1)).length), herase] at hinv
                    omega
                  · cases h
                  · cases h
      -- (None, Some)
      · split at h
        · cases h
          exact Or.inl rfl
        · cases h
        · rename_i endL hend
          split at h
          · cases h
            exact Or.inl rfl
          · rename_i hndest
            rw [not_le] at hndest
            split at h
            · cases h
            · rename_i hlen
              rw [not_lt] at hlen
              have htl : (ed.data.take endL).length = endL := by
                simp only [List.length_take]
                omega
              have hdl : (ed.data.drop endL).length = ed.data.length - endL := by
                simp only [List.length_drop]
              split at h
              · cases h
              · rename_i hins
                rw [not_lt, hdl] at hins
                split at h
                · rename_i m₂ heq
                  exfalso
                  have hinv := set_line_err_inv _ _ _ heq
                  rw [insert_segment_length _ _ _ (by omega : dest0 - endL ≤ (ed.data.drop endL).length), htl, hdl] at hinv
                  omega
                · cases h
                · cases h
      -- (Some, Some)
      · split at h
        · cases h
          exact Or.inl rfl
        · cases h
        · rename_i startL hstart
          split at h
          · cases h
            exact Or.inl rfl
          · cases h
          · rename_i endL hend
            split at h
            · cases h
              exact Or.inl rfl
            · rename_i hndest
              split at h
              · rename_i hord
                split at h
                · cases h
                · rename_i hguard
                  rw [not_or, not_lt] at hguard
                  have hll : ((ed.data.drop (startL - 1)).take (endL - startL + 1)).length
                      = endL - startL + 1 := by
                    simp only [List.length_take, List.length_drop]
                    omega
                  have hdl : (ed.data.take (startL - 1) ++ ed.data.drop endL).length
                      = (startL - 1) + (ed.data.length - endL) := by
                    simp only [List.length_append, List.length_take, List.length_drop]
                    omega
                  by_cases hc : endL < dest0
                  · simp only [if_pos hc] at h
                    split at h
                    · cases h
                    · rename_i hins
                      rw [not_lt, hll, hdl] at hins
                      split at h
                      · rename_i m₂ heq
                        exfalso
                        have hinv := set_line_err_inv _ _ _ heq
                        rw [insert_segment_length _ _ _ (by rw [hll, hdl]; omega), hll, hdl] at hinv
                        omega
                      · cases h
                      · cases h
                  · simp only [if_neg hc] at h
                    split at h
                    · cases h
                    · rename_i hins
                      rw [not_lt, hdl] at hins
                      split at h
                      · rename_i m₂ heq
                        exfalso
                        have hinv := set_line_err_inv _ _ _ heq
                        rw [insert_segment_length _ _ _ (by rw [hdl]; omega), hll, hdl] at hinv
                        omega
                      · cases h
                      · cases h
              · split at h
                · cases h
                  exact Or.inl rfl
                · cases h
                · cases h

/-- C3 (counterexample): on a one-line buffer, resolving `Numbered(0)`
succeeds with 0 — the claimed failure for `n == 0` does not happen, because
`get_actual_line` only rejects `n > len`. -/
theorem numbered_zero_resolves :
    Command.get_actual_line ⟨1, [['a']], .Command, none, false, none⟩ (.Numbered 0) = .ok 0 := by
  decide

/-- C3 (amended): resolving `Numbered(n)` yields `n` for every `n ≤ len`,
including `n = 0`; it fails exactly when `n > len`.  Zero is only rejected
later by context-specific checks, not by resolution. -/
theorem numbered_resolution (ed : Red) (n : Nat) :
    Command.get_actual_line ed (.Numbered n) =
      if ed.data.length < n then .err "Invalid address" else .ok n := rfl

/-- C4: the final `match` of `parse` has no arm for the letters `m`, `s`,
`r` and `Q`; token sequences for `1,2m3`, `s/a/b/`, `r f` and `Q` all fall
into the `_ => Command::Noop` catch-all instead of producing `Move`,
`Substitute`, `Read` or a forced `Quit`. -/
theorem unhandled_letters_parse_to_noop :
    parse [.Address ['1'], .Separator ',', .Address ['2'], .Command 'm', .Suffix ['3']]
        = .ok .Noop
    ∧ parse [.Command 's', .Suffix "/a/b/".toList] = .ok .Noop
    ∧ parse [.Command 'r', .Argument ['f']] = .ok .Noop
    ∧ parse [.Command 'Q'] = .ok .Noop := by
  refine ⟨?_, ?_, ?_, ?_⟩ <;> decide

/-- C5 (counterexample): with both a start and an end address captured, the
letter `i` keeps the START address (`start.or(end)`), not the end address
the claim requires. -/
theorem insert_uses_start_not_end :
    parse [.Address ['1'], .Separator ',', .Address ['2'], .Command 'i']
        = .ok (.Insert (some (.Numbered 1)))
    ∧ (Command.Insert (some (.Numbered 1)) ≠ .Insert (some (.Numbered 2))) := by
  refine ⟨?_, ?_⟩ <;> decide

/-- C5 (amended): with both addresses captured, `i` prefers the start
address (`start.or(end)`) while `a` prefers the end address
(`end.or(start)`); with a single captured address both use it. -/
theorem insert_append_address_preference (s1 s2 : Str) (A1 A2 : Address)
    (h1 : parse_address s1 = .ok A1) (h2 : parse_address s2 = .ok A2) :
    parse [.Address s1, .Separator ',', .Address s2, .Command 'i'] = .ok (.Insert (some A1))
    ∧ parse [.Address s1, .Separator ',', .Address s2, .Command 'a'] = .ok (.Append (some A2))
    ∧ parse [.Address s1, .Command 'i'] = .ok (.Insert (some A1))
    ∧ parse [.Address s1, .Command 'a'] = .ok (.Append (some A1)) := by
  refine ⟨?_, ?_, ?_, ?_⟩ <;>
    simp [parse, parseLoop, h1, h2, Option.or]

/-- C5 (witness). -/
theorem insert_append_address_preference_witness :
    (parse_address ['1'] = .ok (.Numbered 1) ∧ parse_address ['2'] = .ok (.Numbered 2))
    ∧ (parse [.Address ['1'], .Separator ',', .Address ['2'], .Command 'i']
          = .ok (.Insert (some (.Numbered 1)))
      ∧ parse [.Address ['1'], .Separator ',', .Address ['2'], .Command 'a']
          = .ok (.Append (some (.Numbered 2)))
      ∧ parse [.Address ['1'], .Command 'i'] = .ok (.Insert (some (.Numbered 1)))
      ∧ parse [.Address ['1'], .Command 'a'] = .ok (.Append (some (.Numbered 1)))) :=
  ⟨⟨by decide, by decide⟩,
    insert_append_address_preference ['1'] ['2'] (.Numbered 1) (.Numbered 2)
      (by decide) (by decide)⟩

/-- C6: an unforced quit on a dirty buffer fails with the buffer-modified
warning and clears the dirty flag, so an immediate second unforced quit
succeeds with the Quit action; a forced quit succeeds on any state. -/
theorem quit_dirty_warning (fs : FileSys) (ed : Red) (h : ed.dirty = true) :
    Command.execute fs (.Quit false) ed = .err { ed with dirty := false } "Warning: buffer modified"
    ∧ Command.execute fs (.Quit false) { ed with dirty := false }
        = .ok { ed with dirty := false } .Quit
    ∧ ∀ ed2 : Red, Command.execute fs (.Quit true) ed2 = .ok ed2 .Quit := by
  refine ⟨?_, ?_, fun ed2 => ?_⟩ <;> simp [Command.execute, Command.quit, h]

/-- C6 (witness). -/
theorem quit_dirty_warning_witness :
    ((⟨1, [['a']], .Command, none, true, none⟩ : Red).dirty = true)
    ∧ (Command.execute fs0 (.Quit false) ⟨1, [['a']], .Command, none, true, none⟩
        = .err ⟨1, [['a']], .Command, none, false, none⟩ "Warning: buffer modified"
      ∧ Command.execute fs0 (.Quit false) ⟨1, [['a']], .Command, none, false, none⟩
          = .ok ⟨1, [['a']], .Command, none, false, none⟩ .Quit
      ∧ ∀ ed2 : Red, Command.execute fs0 (.Quit true) ed2 = .ok ed2 .Quit) :=
  ⟨rfl, quit_dirty_warning fs0 ⟨1, [['a']], .Command, none, true, none⟩ rfl⟩

/-- C7 (counterexample): `#` after the command letter is not a space and not
any meaningful suffix character, yet the tokenizer happily returns a Suffix
token instead of the claimed SyntaxError. -/
theorem tokenize_letter_then_garbage :
    tokenize "p#x".toList = .ok [.Command 'p', .Suffix "#x".toList] := by decide

/-- C7 (amended): the tokenizer is total — every input tokenizes to `Ok`;
any non-space character after the command letter simply starts a Suffix
token. -/
theorem tokenize_never_fails (line : Str) : ∃ ts, tokenize line = .ok ts := ⟨_, rfl⟩

/-- C10: a successful Edit replaces the path, the line sequence and the
cursor (set to the new last line) and leaves everything else — in particular
the dirty flag — untouched. -/
theorem edit_preserves_dirty (fs : FileSys) (ed : Red) (file : Option Str) (p : Str)
    (newData : List Str) (hp : file.or ed.path = some p) (hf : fs p = some newData) :
    Command.execute fs (.Edit file) ed =
      .ok { ed with path := some p, data := newData, current_line := newData.length }
        .Continue := by
  simp [Command.execute, Command.edit, hp, hf]

/-- C10 (witness): reloading over a dirty buffer keeps `dirty = true`. -/
theorem edit_preserves_dirty_witness :
    ((some ['f']).or (⟨1, [['a']], .Command, none, true, none⟩ : Red).path = some ['f']
      ∧ (fun p => if p = ['f'] then some [['x'], ['y']] else none) ['f'] = some [['x'], ['y']])
    ∧ Command.execute (fun p => if p = ['f'] then some [['x'], ['y']] else none)
        (.Edit (some ['f'])) ⟨1, [['a']], .Command, none, true, none⟩
        = .ok ⟨2, [['x'], ['y']], .Command, some ['f'], true, none⟩ .Continue :=
  ⟨⟨by decide, by decide⟩,
    edit_preserves_dirty (fun p => if p = ['f'] then some [['x'], ['y']] else none)
      ⟨1, [['a']], .Command, none, true, none⟩ (some ['f']) ['f'] [['x'], ['y']]
      (by decide) (by decide)⟩

/-- C1 (counterexample): on an empty buffer the default-range Move resolves
its one-line source range and its destination to the cursor 0, so the
destination lies inside the source range, yet `move_lines` returns success
(`Ok(Continue)`) instead of the claimed invalid-destination failure. -/
theorem move_self_range_empty_buffer :
    moveSourceRange ⟨0, [], .Command, none, false, none⟩ none none = .ok (0, 0)
    ∧ Command.get_actual_line ⟨0, [], .Command, none, false, none⟩ .CurrentLine = .ok 0
    ∧ Command.execute fs0 (.Move none none .CurrentLine) ⟨0, [], .Command, none, false, none⟩
        = .ok ⟨0, [], .Command, none, false, none⟩ .Continue := by
  refine ⟨?_, ?_, ?_⟩ <;> decide

/-- C1 (amended): on a NONEMPTY buffer, whenever the Move source range
resolves to `[s, e]` and the destination to `d` with `s ≤ d ≤ e` (including
the one-line default range `s = e = cursor`), `move_lines` fails with
"Invalid destination" and returns the state unchanged. -/
theorem move_self_range_invalid_dest (fs : FileSys) (ed : Red)
    (start endA : Option Address) (dest : Address) (s e d : Nat)
    (hne : ed.data ≠ [])
    (hr : moveSourceRange ed start endA = .ok (s, e))
    (hd : Command.get_actual_line ed dest = .ok d)
    (hsd : s ≤ d) (hde : d ≤ e) :
    Command.execute fs (.Move start endA dest) ed = .err ed "Invalid destination" := by
  cases start with
  | none =>
    cases endA with
    | none =>
      simp only [moveSourceRange, PRes.ok.injEq, Prod.mk.injEq] at hr
      have hs : s = ed.current_line := hr.1.symm
      have he : e = ed.current_line := hr.2.symm
      have hdc : d = ed.current_line := by omega
      simp [Command.execute, Command.move_lines, hne, hd, hdc]
    | some b =>
      simp only [moveSourceRange] at hr
      rcases hb : Command.get_actual_line ed b with n | m | _ <;> rw [hb] at hr <;>
        simp only [PRes.ok.injEq, Prod.mk.injEq, reduceCtorEq] at hr
      obtain ⟨hs, he⟩ := hr
      subst hs he
      have hle : d ≤ n := hde
      simp [Command.execute, Command.move_lines, hne, hd, hb, hle]
  | some a =>
    cases endA with
    | none =>
      simp only [moveSourceRange] at hr
      rcases ha : Command.get_actual_line ed a with n | m | _ <;> rw [ha] at hr <;>
        simp only [PRes.ok.injEq, Prod.mk.injEq, reduceCtorEq] at hr
      obtain ⟨hs, he⟩ := hr
      have hdn : d = n := by omega
      simp [Command.execute, Command.move_lines, hne, hd, ha, hdn]
    | some b =>
      simp only [moveSourceRange] at hr
      rcases ha : Command.get_actual_line ed a with n | m | _ <;> rw [ha] at hr
      · rcases hb : Command.get_actual_line ed b with k | m2 | _ <;> rw [hb] at hr
        · simp only [PRes.ok.injEq, Prod.mk.injEq] at hr
          obtain ⟨hs, he⟩ := hr
          subst hs he
          simp [Command.execute, Command.move_lines, hne, hd, ha, hb, hsd, hde]
        · exact absurd hr (by simp)
        · exact absurd hr (by simp)
      · exact absurd hr (by simp)
      · exact absurd hr (by simp)

/-- C1 (witness). -/
theorem move_self_range_invalid_dest_witness :
    ((⟨1, [['A'], ['B'], ['C']], .Command, none, false, none⟩ : Red).data ≠ []
      ∧ moveSourceRange ⟨1, [['A'], ['B'], ['C']], .Command, none, false, none⟩
          (some (.Numbered 1)) (some (.Numbered 2)) = .ok (1, 2)
      ∧ Command.get_actual_line ⟨1, [['A'], ['B'], ['C']], .Command, none, false, none⟩
          (.Numbered 2) = .ok 2)
    ∧ Command.execute fs0 (.Move (some (.Numbered 1)) (some (.Numbered 2)) (.Numbered 2))
        ⟨1, [['A'], ['B'], ['C']], .Command, none, false, none⟩
        = .err ⟨1, [['A'], ['B'], ['C']], .Command, none, false, none⟩ "Invalid destination" :=
  ⟨⟨by decide, by decide, by decide⟩,
    move_self_range_invalid_dest fs0 ⟨1, [['A'], ['B'], ['C']], .Command, none, false, none⟩
      (some (.Numbered 1)) (some (.Numbered 2)) (.Numbered 2) 1 2 2
      (by decide) (by decide) (by decide) (by decide) (by decide)⟩

/-- C2 (amended): a command that returns a failure leaves the line sequence,
cursor and dirty flag unchanged, with exactly two exceptions: an unforced
Quit on a dirty buffer (which clears the dirty flag while failing), and a
default-range Move whose destination resolves to 0 (which fails in
`set_line(0)` only after moving the current line to the front of the
buffer). -/
theorem failing_commands_frame (fs : FileSys) (cmd : Command) (ed ed' : Red) (msg : String)
    (h : Command.execute fs cmd ed = .err ed' msg) :
    (ed'.data = ed.data ∧ ed'.current_line = ed.current_line ∧ ed'.dirty = ed.dirty)
    ∨ (cmd = .Quit false ∧ ed.dirty = true ∧ ed' = { ed with dirty := false })
    ∨ (∃ d0, cmd = .Move none none d0 ∧ Command.get_actual_line ed d0 = .ok 0


        ∧ 1 ≤ ed.current_line ∧ ed'.current_line = ed.current_line ∧ ed'.dirty = ed.dirty
        ∧ ed'.data = ed.data.getD (ed.current_line - 1) []
            :: ed.data.eraseIdx (ed.current_line - 1)) := by
  cases cmd with
  | Noop => exact absurd h (noop_no_err ed ed' msg)
  | Help => simp [Command.execute, Command.help] at h
  | Quit force =>
    cases force with
    | true => simp [Command.execute, Command.quit] at h
    | false =>
      simp only [Command.execute, Command.quit, Bool.not_false, true_and] at h
      split at h
      · rename_i hdirty
        cases h
        exact Or.inr (Or.inl ⟨rfl, by simpa using hdirty, rfl⟩)
      · cases h
  | Jump a =>
    rw [jump_err_frame ed a ed' msg h]
    exact Or.inl ⟨rfl, rfl, rfl⟩
  | Print s e =>
    rw [write_range_err_frame ed s e false ed' msg h]
    exact Or.inl ⟨rfl, rfl, rfl⟩
  | Numbered s e =>
    rw [write_range_err_frame ed s e true ed' msg h]
    exact Or.inl ⟨rfl, rfl, rfl⟩
  | Delete s e =>
    rw [delete_err_frame ed s e ed' msg h]
    exact Or.inl ⟨rfl, rfl, rfl⟩
  | Write s e file =>
    rw [write_err_frame ed s e file ed' msg h]
    exact Or.inl ⟨rfl, rfl, rfl⟩
  | Insert b =>
    rw [insert_err_frame ed b ed' msg h]
    exact Or.inl ⟨rfl, rfl, rfl⟩
  | Append a =>
    rw [append_err_frame ed a ed' msg h]
    exact Or.inl ⟨rfl, rfl, rfl⟩
  | Edit file =>
    rw [edit_err_frame fs ed file ed' msg h]
    exact Or.inl ⟨rfl, rfl, rfl⟩
  | Change s e =>
    rw [change_err_frame ed s e ed' msg h]
    exact Or.inl ⟨rfl, rfl, rfl⟩
  | Read a file =>
    rw [read_err_frame fs ed a file ed' msg h]
    exact Or.inl ⟨rfl, rfl, rfl⟩
  | Substitute s e a =>
    rw [substitute_err_frame ed s e a ed' msg h]
    exact Or.inl ⟨rfl, rfl, rfl⟩
  | Move s e d =>
    rcases move_err_cases ed s e d ed' msg h with hfr | ⟨hs, he, hd, hcur, h1, h2, h3⟩
    · rw [hfr]
      exact Or.inl ⟨rfl, rfl, rfl⟩
    · subst hs
      subst he
      exact Or.inr (Or.inr ⟨d, rfl, hd, hcur, h1, h2, h3⟩)

/-- C2 (witness): deleting on an empty buffer fails and leaves the state
unchanged. -/
theorem failing_commands_frame_witness :
    (Command.execute fs0 (.Delete none none) ⟨0, [], .Command, none, false, none⟩
        = .err ⟨0, [], .Command, none, false, none⟩ "Invalid address")
    ∧ (((⟨0, [], .Command, none, false, none⟩ : Red).data
          = (⟨0, [], .Command, none, false, none⟩ : Red).data
        ∧ (⟨0, [], .Command, none, false, none⟩ : Red).current_line
          = (⟨0, [], .Command, none, false, none⟩ : Red).current_line
        ∧ (⟨0, [], .Command, none, false, none⟩ : Red).dirty
          = (⟨0, [], .Command, none, false, none⟩ : Red).dirty)
      ∨ ((Command.Delete none none) = .Quit false
        ∧ (⟨0, [], .Command, none, false, none⟩ : Red).dirty = true
        ∧ (⟨0, [], .Command, none, false, none⟩ : Red)
          = { (⟨0, [], .Command, none, false, none⟩ : Red) with dirty := false })
      ∨ (∃ d0, (Command.Delete none none) = .Move none none d0
        ∧ Command.get_actual_line ⟨0, [], .Command, none, false, none⟩ d0 = .ok 0
        ∧ 1 ≤ (⟨0, [], .Command, none, false, none⟩ : Red).current_line
        ∧ (⟨0, [], .Command, none, false, none⟩ : Red).current_line
          = (⟨0, [], .Command, none, false, none⟩ : Red).current_line
        ∧ (⟨0, [], .Command, none, false, none⟩ : Red).dirty
          = (⟨0, [], .Command, none, false, none⟩ : Red).dirty
        ∧ (⟨0, [], .Command, none, false, none⟩ : Red).data
          = (⟨0, [], .Command, none, false, none⟩ : Red).data.getD
              ((⟨0, [], .Command, none, false, none⟩ : Red).current_line - 1) []
            :: (⟨0, [], .Command, none, false, none⟩ : Red).data.eraseIdx
              ((⟨0, [], .Command, none, false, none⟩ : Red).current_line - 1))) :=
  ⟨by decide,
    failing_commands_frame fs0 (.Delete none none) ⟨0, [], .Command, none, false, none⟩
      ⟨0, [], .Command, none, false, none⟩ "Invalid address" (by decide)⟩

/-- C2 (counterexample): a default-range Move whose destination resolves to
0 removes the current line, reinserts it at the front, and only then fails
in `set_line(0)` — the failure is reported with the buffer already
reordered, contradicting the claimed unchanged-on-failure rule (and its
"in particular" for destination 0). -/
theorem move_dest_zero_mutates :
    Command.execute fs0 (.Move none none (.Numbered 0)) ⟨2, [['A'], ['B']], .Command, none, false, none⟩
        = .err ⟨2, [['B'], ['A']], .Command, none, false, none⟩ "Invalid address"
    ∧ ([['B'], ['A']] : List Str) ≠ [['A'], ['B']] := by
  refine ⟨?_, ?_⟩ <;> decide

/-- C9 (counterexample): `3,1s/a/b/` on a three-line buffer resolves both
addresses in bounds, yet execution panics on the reversed slice
`ed.data[2..1]` — the function is not total on in-bounds address pairs. -/
theorem substitute_reversed_range_panics :
    Command.get_actual_line ⟨3, [['a'], ['b'], ['c']], .Command, none, false, none⟩
        (.Numbered 3) = .ok 3
    ∧ Command.get_actual_line ⟨3, [['a'], ['b'], ['c']], .Command, none, false, none⟩
        (.Numbered 1) = .ok 1
    ∧ Command.execute fs0 (.Substitute (some (.Numbered 3)) (some (.Numbered 1))
        (some "/a/b/".toList)) ⟨3, [['a'], ['b'], ['c']], .Command, none, false, none⟩
        = .panic := by
  refine ⟨?_, ?_, ?_⟩ <;> decide

/-- C8: executing Substitute with a well-formed `/pattern/replacement[/flags]`
argument over an in-bounds resolved range `[s, e]` (`start`/`end` of `None`
default to the cursor line): with the `g` flag every occurrence in a line is
rewritten, without it only the leftmost; a line in the range with no
occurrence is untouched, lines outside the range are untouched; if no line
of the range changes, the command fails with "No match" and the state is
unchanged; otherwise the buffer is rewritten, marked dirty, and the cursor
moves to the last modified line `m` (the line at `m` changed and every later
line of the range is fixed by the rewrite). -/
theorem substitute_range_rewrite (fs : FileSys) (ed : Red) (start endA : Option Address)
    (pat rest2 rep flags : Str) (s e : Nat) (f : Str → Str)
    (hpat : ('/' : Char) ∉ pat)
    (hform : (rest2 = rep ++ '/' :: flags ∧ ('/' : Char) ∉ rep)
      ∨ (rest2 = rep ∧ ('/' : Char) ∉ rep ∧ flags = []))
    (hf : f = fun line =>
      if flags.contains 'g' then replaceAll pat rep line else replaceFirst pat rep line)
    (hs : Command.resolveOrCurrent ed start = .ok s)
    (he : Command.resolveOrCurrent ed endA = .ok e)
    (h1 : 1 ≤ s) (hse : s ≤ e) (hel : e ≤ ed.data.length) :
    ((∀ i, s - 1 ≤ i → i < e → f (ed.data.getD i []) = ed.data.getD i []) →
        Command.execute fs (.Substitute start endA (some ('/' :: (pat ++ '/' :: rest2)))) ed
          = .err ed "No match")
    ∧ ((¬ ∀ i, s - 1 ≤ i → i < e → f (ed.data.getD i []) = ed.data.getD i []) →
        ∃ m, Command.execute fs
              (.Substitute start endA (some ('/' :: (pat ++ '/' :: rest2)))) ed
            = .ok { ed with
                data := ed.data.take (s - 1) ++
                  ((ed.data.drop (s - 1)).take (e - (s - 1))).map f ++ ed.data.drop e,
                current_line := m, dirty := true } .Continue
          ∧ s ≤ m ∧ m ≤ e
          ∧ f (ed.data.getD (m - 1) []) ≠ ed.data.getD (m - 1) []
          ∧ ∀ j, m ≤ j → j < e → f (ed.data.getD j []) = ed.data.getD j []) := by
  have hexec : Command.execute fs
      (.Substitute start endA (some ('/' :: (pat ++ '/' :: rest2)))) ed
      = Command.substCore ed start endA pat rep flags :=
    substitute_parses_arg ed start endA pat rest2 rep flags hpat hform
  rw [hexec]
  exact substCore_spec ed start endA pat rep flags s e f hf hs he h1 hse hel

/-- C8 (witness): `s/foo/baz/g` on the one-line buffer `["foo bar foo"]`. -/
theorem substitute_range_rewrite_witness :
    ((('/' : Char) ∉ "foo".toList)
      ∧ ("baz/g".toList = "baz".toList ++ '/' :: "g".toList ∧ ('/' : Char) ∉ "baz".toList)
      ∧ Command.resolveOrCurrent ⟨1, ["foo bar foo".toList], .Command, none, false, none⟩ none
          = .ok 1
      ∧ ¬ ∀ i, 1 - 1 ≤ i → i < 1 →
          (fun line => if ("g".toList).contains 'g'
              then replaceAll "foo".toList "baz".toList line
              else replaceFirst "foo".toList "baz".toList line)
            ((["foo bar foo".toList] : List Str).getD i [])
            = (["foo bar foo".toList] : List Str).getD i [])
    ∧ ∃ m, Command.execute fs0
          (.Substitute none none (some ('/' :: ("foo".toList ++ '/' :: "baz/g".toList))))
          ⟨1, ["foo bar foo".toList], .Command, none, false, none⟩
        = .ok { (⟨1, ["foo bar foo".toList], .Command, none, false, none⟩ : Red) with
            data := (["foo bar foo".toList] : List Str).take (1 - 1) ++
              ((((["foo bar foo".toList] : List Str)).drop (1 - 1)).take (1 - (1 - 1))).map
                (fun line => if ("g".toList).contains 'g'
                  then replaceAll "foo".toList "baz".toList line
                  else replaceFirst "foo".toList "baz".toList line) ++
              (["foo bar foo".toList] : List Str).drop 1,
            current_line := m, dirty := true } .Continue
      ∧ 1 ≤ m ∧ m ≤ 1
      ∧ (fun line => if ("g".toList).contains 'g'
            then replaceAll "foo".toList "baz".toList line
            else replaceFirst "foo".toList "baz".toList line)
          ((["foo bar foo".toList] : List Str).getD (m - 1) [])
          ≠ (["foo bar foo".toList] : List Str).getD (m - 1) []
      ∧ ∀ j, m ≤ j → j < 1 →
          (fun line => if ("g".toList).contains 'g'
              then replaceAll "foo".toList "baz".toList line
              else replaceFirst "foo".toList "baz".toList line)
            ((["foo bar foo".toList] : List Str).getD j [])
            = (["foo bar foo".toList] : List Str).getD j [] :=
  ⟨⟨by decide, ⟨by decide, by decide⟩, by decide, by decide⟩,
    (substitute_range_rewrite fs0 ⟨1, ["foo bar foo".toList], .Command, none, false, none⟩
        none none "foo".toList "baz/g".toList "baz".toList "g".toList 1 1 _
        (by decide) (Or.inl ⟨by decide, by decide⟩) rfl (by decide) (by decide)
        (by decide) (by decide) (by decide)).2 (by decide)⟩

/-- C9 (amended): when the two resolved addresses are in bounds AND well
ordered (`s ≤ e`), and the argument is not the empty string (whose byte
slice panics before any line access), Substitute never panics — in
particular it never accesses the line sequence out of bounds.  The reversed
range of the counterexample is exactly the excluded case. -/
theorem substitute_in_bounds (fs : FileSys) (ed : Red) (start endA : Option Address)
    (arg : Option Str) (s e : Nat)
    (harg : arg ≠ some [])
    (hs : Command.resolveOrCurrent ed start = .ok s)
    (he : Command.resolveOrCurrent ed endA = .ok e)
    (h1 : 1 ≤ s) (hse : s ≤ e) (hel : e ≤ ed.data.length) :
    Command.execute fs (.Substitute start endA arg) ed ≠ .panic := by
  show Command.substitute ed start endA arg ≠ .panic
  match arg with
  | none => simp [Command.substitute]
  | some [] => exact absurd rfl harg
  | some (c :: arg') =>
    simp only [Command.substitute]
    by_cases hc : c = '/'
    · rw [if_neg (by simp [hc])]
      rcases hidx : List.findIdx? (fun ch => ch == '/') arg' with _ | k
      · simp
      · exact substCore_no_panic ed start endA _ _ _ s e hs he h1 hse hel
    · rw [if_pos hc]
      simp

/-- C9 (witness). -/
theorem substitute_in_bounds_witness :
    ((some "/a/b/".toList ≠ some ([] : Str))
      ∧ Command.resolveOrCurrent ⟨3, [['a'], ['b'], ['c']], .Command, none, false, none⟩
          (some (.Numbered 1)) = .ok 1
      ∧ Command.resolveOrCurrent ⟨3, [['a'], ['b'], ['c']], .Command, none, false, none⟩
          (some (.Numbered 3)) = .ok 3)
    ∧ Command.execute fs0 (.Substitute (some (.Numbered 1)) (some (.Numbered 3))
        (some "/a/b/".toList)) ⟨3, [['a'], ['b'], ['c']], .Command, none, false, none⟩
        ≠ .panic :=
  ⟨⟨by decide, by decide, by decide⟩,
    substitute_in_bounds fs0 ⟨3, [['a'], ['b'], ['c']], .Command, none, false, none⟩
      (some (.Numbered 1)) (some (.Numbered 3)) (some "/a/b/".toList) 1 3
      (by decide) (by decide) (by decide) (by decide) (by decide) (by decide)⟩

end RedEd
